import Mathlib

/-!
Verification development for the neotree-impilo-shr-adapter repository.

Shallow embedding of the reliable-ingestion pipeline (CDC poller, watermark
store, failure ledger) and of the entity-resolution engine (duplicate
detection, string similarity, merge of patient data), translated from:

* `src/shared/utils/string-matching.ts` (Levenshtein, Jaro, Jaro-Winkler)
* `src/fhir-adapter/services/duplicate-detection-service.ts`
* `src/fhir-adapter/services/missing-data-handler.ts`
* `src/fhir-adapter/services/cdc-service.ts`
* `src/fhir-adapter/database/setup-cdc.sql`

Conventions: JavaScript numbers are modelled as `ℚ`, timestamps and row ids
as `ℕ`, optional/possibly-`undefined` values as `Option`, and the JavaScript
falsiness of the empty string is made explicit wherever the source relies
on it (`x || null`, `if (!x)`).  Strings are compared character-wise; the
source's `toLowerCase` is modelled per character, which agrees with it on
the ASCII data the system handles.
-/

namespace Impilo

/-- Character-wise lower-casing of a string, modelling `str.toLowerCase()`. -/
def lowerChars (s : String) : List Char :=
  s.toList.map Char.toLower

/-- The `|| null` coercion the source applies to extracted string values:
a JavaScript empty string is falsy, so `"" || null` is `null`. -/
def falsyNull (o : Option String) : Option String :=
  match o with
  | none => none
  | some s => if s = "" then none else some s

/-- Truthiness test for an optional string (`!x` in the source):
`undefined`/`null` and `""` are falsy. -/
def strFalsy (o : Option String) : Bool :=
  match o with
  | none => true
  | some s => s == ""

/-! ### String matching (`string-matching.ts`) -/

/-- Textbook Levenshtein recurrence over character lists.  The source fills
a `(len1+1) × (len2+1)` dynamic-programming matrix with exactly this
recurrence (insertion, deletion, substitution all cost 1); the matrix is
rendered here as structural recursion. -/
def levenshteinCore : List Char → List Char → ℕ
  | [], l2 => l2.length
  | l1, [] => l1.length
  | c1 :: t1, c2 :: t2 =>
    min (min (levenshteinCore t1 (c2 :: t2) + 1) (levenshteinCore (c1 :: t1) t2 + 1))
      (levenshteinCore t1 t2 + (if c1 = c2 then 0 else 1))
termination_by l1 l2 => l1.length + l2.length
decreasing_by all_goals (simp only [List.length_cons]; omega)

/-- `levenshteinDistance(str1, str2)`: if either string is empty the source
returns the length of the other (`Math.max` of the lengths); otherwise it
runs the DP over the lower-cased strings. -/
def levenshteinDistance (str1 str2 : String) : ℕ :=
  if str1 = "" ∨ str2 = "" then max str1.length str2.length
  else levenshteinCore (lowerChars str1) (lowerChars str2)

/-- The inner `for j = start .. end-1` search of the Jaro matching loop:
the first index `j` of `s2` inside the window `[lo, hi)` that is not yet
matched and whose character equals `c`.  The source clamps the window to
`[0, len2)`; scanning `List.range s2.length` makes those clamps redundant. -/
def jaroFindMatch (s2 : List Char) (s2M : List Bool) (c : Char) (lo hi : ℤ) : Option ℕ :=
  (List.range s2.length).find? fun j =>
    decide (lo ≤ (j : ℤ)) && decide ((j : ℤ) < hi) && !(s2M.getD j true) && (s2.get? j == some c)

/-- The outer Jaro matching loop: walks `s1` with index `i`, marking matched
positions of `s1` (returned first) and of `s2` (threaded through). -/
def jaroMark (s2 : List Char) (w : ℤ) : List Char → ℕ → List Bool → List Bool × List Bool
  | [], _, s2M => ([], s2M)
  | c :: rest, i, s2M =>
    match jaroFindMatch s2 s2M c ((i : ℤ) - w) ((i : ℤ) + w + 1) with
    | some j =>
      let res := jaroMark s2 w rest (i + 1) (s2M.set j true)
      (true :: res.1, res.2)
    | none =>
      let res := jaroMark s2 w rest (i + 1) s2M
      (false :: res.1, res.2)

/-- `jaroSimilarity(str1, str2)` from the source: 0 when either string is
empty, 1 when the raw strings are identical, otherwise the Jaro formula over
the lower-cased strings.  The transposition walk of the source (advancing a
cursor `k` over matched positions of `s2`) counts the positions at which the
matched characters of `s1` and of `s2`, each taken in index order, differ. -/
def jaroSimilarity (str1 str2 : String) : ℚ :=
  if str1 = "" ∨ str2 = "" then 0
  else if str1 = str2 then 1
  else
    let s1 := lowerChars str1
    let s2 := lowerChars str2
    let len1 := s1.length
    let len2 := s2.length
    let w : ℤ := (max len1 len2 : ℤ) / 2 - 1
    let marks := jaroMark s2 w s1 0 (List.replicate len2 false)
    let m := marks.1.count true
    if m = 0 then 0
    else
      let mc1 := ((s1.zip marks.1).filter (·.2)).map (·.1)
      let mc2 := ((s2.zip marks.2).filter (·.2)).map (·.1)
      let t := ((mc1.zip mc2).filter fun p => p.1 != p.2).length
      ((m : ℚ) / len1 + (m : ℚ) / len2
        + ((m : ℚ) - (t : ℚ) / 2) / (m : ℚ)) / 3

/-- The prefix loop of `jaroWinklerSimilarity`: counts equal leading
characters, stopping at the first difference or after `cap` characters. -/
def pfxLen : List Char → List Char → ℕ → ℕ
  | a :: t1, b :: t2, n + 1 => if a = b then pfxLen t1 t2 n + 1 else 0
  | _, _, _ => 0

/-- Unbounded common-prefix length of two character lists (specification
device used to state what the capped loop computes). -/
def commonLen : List Char → List Char → ℕ
  | a :: t1, b :: t2 => if a = b then commonLen t1 t2 + 1 else 0
  | _, _ => 0

/-- `jaroWinklerSimilarity(str1, str2)` from the source: returns the Jaro
similarity unchanged when it is below 0.7; otherwise adds the prefix bonus
`prefix * 0.1 * (1 - jaro)` where the prefix loop is capped at
`min(4, min(len1, len2))` characters of the lower-cased strings. -/
def jaroWinklerSimilarity (str1 str2 : String) : ℚ :=
  let jaro := jaroSimilarity str1 str2
  if jaro < 7 / 10 then jaro
  else
    let s1 := lowerChars str1
    let s2 := lowerChars str2
    let maxPfx := min 4 (min s1.length s2.length)
    let p := pfxLen s1 s2 maxPfx
    jaro + (p : ℚ) * (1 / 10) * (1 - jaro)

/-! ### Decision-rule data model (`decision-rules.types.ts`) -/

/-- `MatchAlgorithm = 'exact' | 'levenshtein' | 'jaro-winkler'`. -/
inductive MatchAlgorithm
  | exact
  | levenshtein
  | jaroWinkler
deriving DecidableEq, Repr

/-- `NullHandling = 'conservative' | 'moderate' | 'greedy'`. -/
inductive NullHandling
  | conservative
  | moderate
  | greedy
deriving DecidableEq, Repr

/-- `MatchingType = 'deterministic' | 'probabilistic'`. -/
inductive MatchingType
  | deterministic
  | probabilistic
deriving DecidableEq, Repr

/-- `MatchScore.matchLevel`. -/
inductive MatchLevel
  | autoMatch
  | potentialMatch
  | noMatch
deriving DecidableEq, Repr

/-- `FieldRule`.  The human-readable `fhirpath` and `description` fields are
not consulted by any code modelled here and are omitted. -/
structure FieldRule where
  algorithm : MatchAlgorithm
  threshold : Option ℚ
  weight : ℚ
  null_handling : NullHandling
  null_handling_both : NullHandling
  espath : String
deriving DecidableEq, Repr

/-- `MatchingRule`.  `fields` is a record in the source; `Object.entries`
iterates it in insertion order, so it is modelled as an association list.
The `description` field is omitted. -/
structure MatchingRule where
  matchingType : MatchingType
  fields : List (String × FieldRule)
  autoMatchThreshold : ℚ
  potentialMatchThreshold : ℚ
deriving DecidableEq, Repr

/-- `MatchScore`.  The human-readable `details` string is omitted. -/
structure MatchScore where
  totalScore : ℚ
  fieldScores : List (String × ℚ)
  matchLevel : MatchLevel
deriving DecidableEq, Repr

/-! ### FHIR patient data model (`fhir.types.ts`, fields used by the engine) -/

/-- FHIR `Identifier`, restricted to the fields the engine reads. -/
structure Identifier where
  system : Option String
  value : Option String
deriving DecidableEq, Repr

/-- FHIR `HumanName`, restricted to the fields the engine reads. -/
structure HumanName where
  family : Option String
  given : Option (List String)
deriving DecidableEq, Repr

/-- FHIR `Patient`, restricted to the fields read by duplicate detection and
by the missing-data handler.  `resourceType` is kept because
`findPotentialDuplicates` filters candidates on it. -/
structure FHIRPatient where
  resourceType : String
  id : Option String
  identifier : Option (List Identifier)
  name : Option (List HumanName)
  birthDate : Option String
  gender : Option String
deriving DecidableEq, Repr

/-! ### Duplicate detection (`duplicate-detection-service.ts`) -/

/-- The branch expression of `extractFieldValue` before the trailing
`|| null` coercion: what the JavaScript expression evaluates to, with
`undefined` rendered as `none`.  The `default` case of the switch yields
`null` directly. -/
def rawFieldValue (p : FHIRPatient) (fieldRule : FieldRule) : Option String :=
  match fieldRule.espath with
  | "identifier.neotreeId" =>
    (p.identifier.bind fun l =>
      l.find? fun i => i.system == some "urn:neotree:impilo-id").bind (·.value)
  | "identifier.patientId" =>
    (p.identifier.bind fun l =>
      l.find? fun i => i.system == some "urn:impilo:uid").bind (·.value)
  | "birthDate" => p.birthDate
  | "family" => (p.name.bind List.getLast?).bind (·.family)
  | "given" => ((p.name.bind List.getLast?).bind (·.given)).bind List.head?
  | "gender" => p.gender
  | _ => none

/-- `extractFieldValue(patient, fieldRule)`: every branch of the source
returns `<expr> || null`, so a found-but-empty string also yields `null`.
`family`/`given` read the last element of the `name` array
(`name[name.length - 1]`, which is `undefined` on an empty array). -/
def extractFieldValue (p : FHIRPatient) (fieldRule : FieldRule) : Option String :=
  falsyNull (rawFieldValue p fieldRule)

/-- `getNullScore(handling, weight)`.  The unreachable `default: return 0`
of the source needs no counterpart: the enumeration is closed. -/
def getNullScore (handling : NullHandling) (weight : ℚ) : ℚ :=
  match handling with
  | .conservative => 0
  | .moderate => weight * (1 / 2)
  | .greedy => weight

/-- `handleBothNull(fieldRule)`. -/
def handleBothNull (fieldRule : FieldRule) : ℚ :=
  getNullScore fieldRule.null_handling_both fieldRule.weight

/-- `handleOneNull(fieldRule)`. -/
def handleOneNull (fieldRule : FieldRule) : ℚ :=
  getNullScore fieldRule.null_handling fieldRule.weight

/-- `fieldRule.threshold || 2` and friends: JavaScript `||` falls back to
the default when `threshold` is `undefined` or `0` (both falsy). -/
def thresholdOr (t : Option ℚ) (d : ℚ) : ℚ :=
  match t with
  | none => d
  | some x => if x = 0 then d else x

/-- `compareFields(value1, value2, fieldRule)`: null handling first, then
the per-algorithm comparison.  Note the `exact` branch compares the raw
strings with `===` (no case normalisation). -/
def compareFields (value1 value2 : Option String) (fieldRule : FieldRule) : ℚ :=
  match value1, value2 with
  | none, none => handleBothNull fieldRule
  | none, some _ => handleOneNull fieldRule
  | some _, none => handleOneNull fieldRule
  | some a, some b =>
    match fieldRule.algorithm with
    | .exact => if a = b then fieldRule.weight else 0
    | .levenshtein =>
      if (levenshteinDistance a b : ℚ) ≤ thresholdOr fieldRule.threshold 2 then
        fieldRule.weight
      else 0
    | .jaroWinkler =>
      if thresholdOr fieldRule.threshold (85 / 100) ≤ jaroWinklerSimilarity a b then
        fieldRule.weight
      else 0

/-- One iteration of the `for (const [fieldName, fieldRule] of
Object.entries(rule.fields))` loop of `calculateMatchScore`: appends the
per-field score and adds it to the running total. -/
def scoreStep (p1 p2 : FHIRPatient) (acc : List (String × ℚ) × ℚ)
    (fld : String × FieldRule) : List (String × ℚ) × ℚ :=
  let score := compareFields (extractFieldValue p1 fld.2) (extractFieldValue p2 fld.2) fld.2
  (acc.1 ++ [(fld.1, score)], acc.2 + score)

/-- `calculateMatchScore(patient1, patient2, rule)`: accumulates per-field
scores, then classifies with two inclusive thresholds. -/
def calculateMatchScore (p1 p2 : FHIRPatient) (rule : MatchingRule) : MatchScore :=
  let acc := rule.fields.foldl (scoreStep p1 p2) ([], 0)
  { totalScore := acc.2
    fieldScores := acc.1
    matchLevel :=
      if rule.autoMatchThreshold ≤ acc.2 then .autoMatch
      else if rule.potentialMatchThreshold ≤ acc.2 then .potentialMatch
      else .noMatch }

/-- The initial `bestScore` of `calculateBestMatchScore`. -/
def noMatchScore : MatchScore :=
  { totalScore := 0, fieldScores := [], matchLevel := .noMatch }

/-- `calculateBestMatchScore(patient1, patient2)`: keeps the rule with the
strictly highest `totalScore` (first rule wins ties). -/
def calculateBestMatchScore (p1 p2 : FHIRPatient) (rules : List MatchingRule) : MatchScore :=
  rules.foldl
    (fun best rule =>
      let score := calculateMatchScore p1 p2 rule
      if best.totalScore < score.totalScore then score else best)
    noMatchScore

/-- `findPotentialDuplicates(patient, searchResults)`: the bundle's entry
list (`none` when absent), filtered to `Patient` resources, scored against
all rules, no-matches dropped, and the survivors sorted by descending
`totalScore` (the source's stable comparator `b.score.totalScore -
a.score.totalScore`). -/
def findPotentialDuplicates (patient : FHIRPatient) (entries : Option (List FHIRPatient))
    (rules : List MatchingRule) : List (FHIRPatient × MatchScore) :=
  match entries with
  | none => []
  | some es =>
    let candidates := es.filter fun p => p.resourceType == "Patient"
    let found := candidates.filterMap fun c =>
      let best := calculateBestMatchScore patient c rules
      if best.matchLevel ≠ MatchLevel.noMatch then some (c, best) else none
    List.insertionSort (fun a b => b.2.totalScore ≤ a.2.totalScore) found

/-! ### Missing-data handler (`missing-data-handler.ts`) -/

/-- `!merged.identifier || merged.identifier.length === 0`. -/
def identMissing (o : Option (List Identifier)) : Bool :=
  match o with
  | none => true
  | some l => l.isEmpty

/-- `!merged.name || merged.name.length === 0 || !merged.name[0].family`. -/
def nameFirstNoFamily (o : Option (List HumanName)) : Bool :=
  match o with
  | none => true
  | some [] => true
  | some (h :: _) => strFalsy h.family

/-- `existingPatient.name && existingPatient.name.length > 0`. -/
def nameNonempty (o : Option (List HumanName)) : Bool :=
  match o with
  | some (_ :: _) => true
  | _ => false

/-- `mergePatientData(newPatient, existingPatient)`: starts from a copy of
the new patient and fills identifier, birthDate, gender and name from the
existing patient under the source's truthiness conditions.  Note the name
step replaces the whole `name` array whenever the new patient's first name
entry has no (truthy) `family`, even if that entry carries given names. -/
def mergePatientData (newPatient existingPatient : FHIRPatient) : FHIRPatient :=
  let merged := newPatient
  let merged :=
    if identMissing merged.identifier then
      { merged with identifier := existingPatient.identifier }
    else merged
  let merged :=
    if strFalsy merged.birthDate && !strFalsy existingPatient.birthDate then
      { merged with birthDate := existingPatient.birthDate }
    else merged
  let merged :=
    if strFalsy merged.gender && !strFalsy existingPatient.gender then
      { merged with gender := existingPatient.gender }
    else merged
  let merged :=
    if nameFirstNoFamily merged.name && nameNonempty existingPatient.name then
      { merged with name := existingPatient.name }
    else merged
  merged

/-! ### CDC poller, watermark and failure ledger
(`cdc-service.ts` + `setup-cdc.sql`) -/

/-- One row of the source `sessions` table as fetched by `get_new_sessions`:
`id`, `ingested_at` (watermark ordering key), `time` (original session
timestamp), optional `impilo_uid`/`impilo_id`, and the JSON serialisation of
the `data` document (`JSON.stringify(record.data)` is what the failure path
stores, so the document itself is kept opaque). -/
structure SessionRow where
  id : ℕ
  ingestedAt : ℕ
  time : ℕ
  impiloUid : Option String
  impiloId : Option String
  dataJson : String
deriving DecidableEq, Repr

/-- The `cdc_watermark` singleton row (fields the poller reads/writes). -/
structure WatermarkRow where
  lastIngestedAt : ℕ
  lastProcessedId : Option ℕ
  recordsProcessed : ℕ
deriving DecidableEq, Repr

/-- One row of `cdc_failed_records`. -/
structure FailureRow where
  sessionId : ℕ
  ingestedAt : ℕ
  attemptCount : ℕ
  lastError : String
  lastAttemptAt : Option ℕ
  createdAt : ℕ
  impiloUid : Option String
  impiloId : Option String
  data : String
  synced : Bool
deriving DecidableEq, Repr

/-- Ordering of optional row ids, `NULL` (the freshly initialised watermark)
sorting below every id. -/
def idLe : Option ℕ → Option ℕ → Prop
  | none, _ => True
  | some _, none => False
  | some a, some b => a ≤ b

instance : DecidableRel idLe
  | none, _ => isTrue trivial
  | some _, none => isFalse fun h => h
  | some a, some b => inferInstanceAs (Decidable (a ≤ b))

/-- Lexicographic order on watermark positions: timestamp first, row id as
tie-break. -/
def posLe (a b : ℕ × Option ℕ) : Prop :=
  a.1 < b.1 ∨ (a.1 = b.1 ∧ idLe a.2 b.2)

instance : DecidableRel posLe := fun a b =>
  inferInstanceAs (Decidable (a.1 < b.1 ∨ (a.1 = b.1 ∧ idLe a.2 b.2)))

/-- The `ORDER BY s.ingested_at ASC, s.id ASC` relation of
`get_new_sessions`. -/
def rowLe (r s : SessionRow) : Prop :=
  posLe (r.ingestedAt, some r.id) (s.ingestedAt, some s.id)

instance : DecidableRel rowLe := fun r s =>
  inferInstanceAs (Decidable (posLe (r.ingestedAt, some r.id) (s.ingestedAt, some s.id)))

instance : IsTotal SessionRow rowLe := by
  constructor
  intro a b
  simp only [rowLe, posLe, idLe]
  omega

instance : IsTrans SessionRow rowLe := by
  constructor
  intro a b c
  simp only [rowLe, posLe, idLe]
  omega

/-- `get_new_sessions(batch_size)`: rows of the source table with
`ingested_at` strictly past the watermark timestamp (the row-id component of
the watermark is not consulted by the query), ordered by
`(ingested_at, id)` ascending, limited to `batch_size`. -/
def getNewSessions (table : List SessionRow) (wm : WatermarkRow) (batchSize : ℕ) :
    List SessionRow :=
  ((table.filter fun r => decide (wm.lastIngestedAt < r.ingestedAt)).insertionSort rowLe).take
    batchSize

/-- `update_watermark(...)`: overwrites position, adds the batch size to
`records_processed`. -/
def updateWatermark (wm : WatermarkRow) (ingestedAt : ℕ) (sessionId : ℕ) (count : ℕ) :
    WatermarkRow :=
  { lastIngestedAt := ingestedAt
    lastProcessedId := some sessionId
    recordsProcessed := wm.recordsProcessed + count }

/-- The row written by `CDCService.recordFailure` for a fresh failure: the
`INSERT` stores `session_id = record.id`, `ingested_at = record.time` (the
original session timestamp), the error message, `JSON.stringify(record.data)`
verbatim, `impilo_uid || null`, `impilo_id || null`, `NOW()` for both
`created_at` and `last_attempt_at`, attempt count 1, and leaves the
`synced` column at its `FALSE` default.  No encryption is applied to any
value. -/
def recordFailureRow (record : SessionRow) (errorMessage : String) (now : ℕ) : FailureRow :=
  { sessionId := record.id
    ingestedAt := record.time
    attemptCount := 1
    lastError := errorMessage
    lastAttemptAt := some now
    createdAt := now
    impiloUid := falsyNull record.impiloUid
    impiloId := falsyNull record.impiloId
    data := record.dataJson
    synced := false }

/-- The `ON CONFLICT (session_id) DO UPDATE` clause shared by
`recordFailure` and `record_failed_session`: refresh `last_error`, stamp
`last_attempt_at`, increment `attempt_count`; every other column is left
unchanged. -/
def conflictUpdate (f : FailureRow) (errorMessage : String) (now : ℕ) : FailureRow :=
  { f with
    lastError := errorMessage
    lastAttemptAt := some now
    attemptCount := f.attemptCount + 1 }

/-- `recordFailure` against a ledger: the upsert-on-conflict write into
`cdc_failed_records`, keyed by the unique `session_id`. -/
def ledgerUpsert (ledger : List FailureRow) (record : SessionRow) (errorMessage : String)
    (now : ℕ) : List FailureRow :=
  if ledger.any fun f => f.sessionId == record.id then
    ledger.map fun f =>
      if f.sessionId == record.id then conflictUpdate f errorMessage now else f
  else
    ledger ++ [recordFailureRow record errorMessage now]

/-- The state the poll path mutates: the watermark row plus the failure
ledger. -/
structure CDCState where
  wm : WatermarkRow
  ledger : List FailureRow
deriving DecidableEq, Repr

/-- `this.batchSize = 100` in `CDCService`. -/
def cdcBatchSize : ℕ := 100

/-- The body of the `for (const record of records)` loop of `processBatch`
as a fold step over the ledger: a record whose processing succeeds leaves
the ledger alone, a failing one is routed to `recordFailure` (`ok` says
whether `adapterService.processEntry` succeeds, `errMsg` gives the thrown
error's message). -/
def failStep (ok : SessionRow → Bool) (errMsg : SessionRow → String) (now : ℕ)
    (led : List FailureRow) (r : SessionRow) : List FailureRow :=
  if ok r then led else ledgerUpsert led r (errMsg r) now

/-- `processBatch(records)`: every record is run through the processing
callback, failures routed to the ledger without aborting the loop;
afterwards the watermark is advanced to the last record of the batch with
the batch length as the processed count. -/
def processBatch (ok : SessionRow → Bool) (errMsg : SessionRow → String) (now : ℕ)
    (records : List SessionRow) (s : CDCState) : CDCState :=
  let ledger := records.foldl (failStep ok errMsg now) s.ledger
  match records.getLast? with
  | some lastRecord =>
    { wm := updateWatermark s.wm lastRecord.ingestedAt lastRecord.id records.length
      ledger := ledger }
  | none => { s with ledger := ledger }

/-- One tick of `pollForNewSessions` (storage reachable): fetch a batch via
`get_new_sessions` and, when non-empty, run `processBatch`. -/
def pollForNewSessions (table : List SessionRow) (ok : SessionRow → Bool)
    (errMsg : SessionRow → String) (now : ℕ) (s : CDCState) : CDCState :=
  let rows := getNewSessions table s.wm cdcBatchSize
  if rows.isEmpty then s else processBatch ok errMsg now rows s

/-- Watermark position as the pair compared lexicographically. -/
def wmPos (wm : WatermarkRow) : ℕ × Option ℕ :=
  (wm.lastIngestedAt, wm.lastProcessedId)

/-! ### Scheduling model for the poll tick (`CDCService.start` /
`pollForNewSessions` guard)

`node-cron` fires the poll callback every 30 seconds regardless of whether
the previous asynchronous run has finished (`void this.pollForNewSessions()`
is fire-and-forget).  The only guard inside `pollForNewSessions` is
`if (!this.isPolling) return`, and `isPolling` is written exactly twice: set
`true` in `start()` and `false` in `stop()`.  The model below keeps the flag
and the number of poll cycles currently in flight; a `tick` event is a cron
firing, a `finish` event is the completion of one in-flight cycle. -/

inductive CDCEvent
  | tick
  | finish
deriving DecidableEq, Repr

/-- Scheduler-visible state: the `isPolling` flag plus how many poll cycles
are currently executing. -/
structure SchedulerState where
  isPolling : Bool
  inFlight : ℕ
deriving DecidableEq, Repr

/-- One scheduler event: a cron `tick` starts a cycle iff `isPolling` is
`true` (the guard does not consult `inFlight`, because the source has no
per-cycle flag); a `finish` retires one in-flight cycle. -/
def schedStep (s : SchedulerState) (e : CDCEvent) : SchedulerState :=
  match e with
  | .tick => if s.isPolling then { s with inFlight := s.inFlight + 1 } else s
  | .finish => { s with inFlight := s.inFlight - 1 }

/-- A run of scheduler events. -/
def schedRun (s : SchedulerState) (es : List CDCEvent) : SchedulerState :=
  es.foldl schedStep s

/-- `start()` sets `isPolling := true`; no poll cycle is yet in flight. -/
def startedState : SchedulerState :=
  { isPolling := true, inFlight := 0 }

/-! ### Codec token format (`sync-service.ts`)

`SyncService.encryptData` produces `base64(iv) ++ ":" ++ base64(cipher)` and
`decryptData` splits on `':'` and rejects the token when either part is
missing.  Only the shape test is needed here. -/

/-- Split a character list on `':'` (the behaviour of JavaScript
`string.split(':')`, at the character level). -/
def splitOnColon : List Char → List (List Char)
  | [] => [[]]
  | c :: rest =>
    let r := splitOnColon rest
    if c = ':' then [] :: r
    else
      match r with
      | h :: t => (c :: h) :: t
      | [] => [[c]]

/-- The well-formedness test `decryptData` applies to a stored token:
split on `':'` and require both of the first two parts to be non-empty
(`if (!ivB64 || !encryptedB64) throw ...`). -/
def tokenWellFormed (s : String) : Bool :=
  match splitOnColon s.toList with
  | iv :: enc :: _ => !iv.isEmpty && !enc.isEmpty
  | _ => false

/-! ### Concrete instances used in the theorems below -/

/-- Per-field score of a configured field, as a standalone expression
(statement device for the fold over `Object.entries(rule.fields)`). -/
def fieldScoreOf (p1 p2 : FHIRPatient) (fld : String × FieldRule) : ℚ :=
  compareFields (extractFieldValue p1 fld.2) (extractFieldValue p2 fld.2) fld.2

/-- The `family` field of the spec's boundary scenario: exact match,
weight 10, one-missing handling `moderate`. -/
def scenarioFamilyRule : FieldRule :=
  { algorithm := .exact
    threshold := none
    weight := 10
    null_handling := .moderate
    null_handling_both := .moderate
    espath := "family" }

/-- The `birthDate` field of the boundary scenario: exact match, weight 10,
one-missing handling `conservative`. -/
def scenarioBirthDateRule : FieldRule :=
  { algorithm := .exact
    threshold := none
    weight := 10
    null_handling := .conservative
    null_handling_both := .conservative
    espath := "birthDate" }

/-- The boundary-scenario rule: thresholds 15 (auto) and 8 (potential). -/
def scenarioRule : MatchingRule :=
  { matchingType := .deterministic
    fields := [("family", scenarioFamilyRule), ("birthDate", scenarioBirthDateRule)]
    autoMatchThreshold := 15
    potentialMatchThreshold := 8 }

/-- The incoming patient of the boundary scenario. -/
def scenarioNewPatient : FHIRPatient :=
  { resourceType := "Patient"
    id := none
    identifier := none
    name := some [{ family := some "Moyo", given := none }]
    birthDate := some "2020-01-01"
    gender := none }

/-- Candidate A: family matches, birth date missing on the candidate. -/
def candidateA : FHIRPatient :=
  { resourceType := "Patient"
    id := some "cand-a"
    identifier := none
    name := some [{ family := some "Moyo", given := none }]
    birthDate := none
    gender := none }

/-- Candidate B: family and birth date both match. -/
def candidateB : FHIRPatient :=
  { resourceType := "Patient"
    id := some "cand-b"
    identifier := none
    name := some [{ family := some "Moyo", given := none }]
    birthDate := some "2020-01-01"
    gender := none }

/-- Candidate C: neither field matches. -/
def candidateC : FHIRPatient :=
  { resourceType := "Patient"
    id := some "cand-c"
    identifier := none
    name := some [{ family := some "Ncube", given := none }]
    birthDate := some "2019-05-05"
    gender := none }

/-- A patient whose stored family name is the empty string. -/
def emptyFamilyPatient : FHIRPatient :=
  { resourceType := "Patient"
    id := none
    identifier := none
    name := some [{ family := some "", given := none }]
    birthDate := none
    gender := none }

/-- A new patient whose only name entry carries a given name but no family
name. -/
def givenOnlyPatient : FHIRPatient :=
  { resourceType := "Patient"
    id := none
    identifier := none
    name := some [{ family := none, given := some ["Alice"] }]
    birthDate := none
    gender := none }

/-- An existing registry patient with a fully populated name. -/
def existingNamed : FHIRPatient :=
  { resourceType := "Patient"
    id := some "existing-1"
    identifier := none
    name := some [{ family := some "Smith", given := some ["Bob"] }]
    birthDate := none
    gender := none }

/-- A session row with a plaintext `impilo_id` and payload, used to evaluate
the failure-recording path. -/
def plaintextSession : SessionRow :=
  { id := 1
    ingestedAt := 10
    time := 9
    impiloUid := none
    impiloId := some "ID123"
    dataJson := "raw-session-payload" }

/-- Demo source rows for the poll-cycle theorems (deliberately listed out of
order; `get_new_sessions` sorts them). -/
def demoRow1 : SessionRow :=
  { id := 1, ingestedAt := 3, time := 2, impiloUid := none, impiloId := some "K1"
    dataJson := "d1" }

/-- Second demo source row, with the later `(ingested_at, id)` position. -/
def demoRow2 : SessionRow :=
  { id := 2, ingestedAt := 5, time := 4, impiloUid := none, impiloId := none
    dataJson := "d2" }

/-- Demo source table. -/
def demoTable : List SessionRow := [demoRow2, demoRow1]

/-- Demo CDC state: freshly initialised watermark, empty ledger. -/
def demoState : CDCState :=
  { wm := { lastIngestedAt := 0, lastProcessedId := none, recordsProcessed := 0 }
    ledger := [] }

/-- Demo processing callback: row 1 succeeds, everything else fails. -/
def demoOk : SessionRow → Bool := fun r => r.id == 1

/-- Demo error-message function. -/
def demoErr : SessionRow → String := fun _ => "processing failed"

/-- Demo ledger entry with `session_id = 2`. -/
def demoFailure : FailureRow :=
  { sessionId := 2
    ingestedAt := 4
    attemptCount := 1
    lastError := "first error"
    lastAttemptAt := some 11
    createdAt := 11
    impiloUid := none
    impiloId := none
    data := "d2"
    synced := false }

/-- Demo ledger holding just `demoFailure`. -/
def demoLedger : List FailureRow := [demoFailure]

/-! ## Theorems -/

/-- The score-accumulating fold grows the per-field score list by one entry
per configured field. -/
theorem scoreFold_fst (p1 p2 : FHIRPatient) :
    ∀ (fields : List (String × FieldRule)) (acc : List (String × ℚ)) (t : ℚ),
      (fields.foldl (scoreStep p1 p2) (acc, t)).1
        = acc ++ fields.map fun fld => (fld.1, fieldScoreOf p1 p2 fld) := by
  intro fields
  induction fields with
  | nil => intro acc t; simp
  | cons fld rest ih =>
    intro acc t
    simp only [List.foldl_cons, scoreStep, List.map_cons]
    rw [ih]
    simp [fieldScoreOf]

/-- The score-accumulating fold adds exactly the per-field scores to the
running total. -/
theorem scoreFold_snd (p1 p2 : FHIRPatient) :
    ∀ (fields : List (String × FieldRule)) (acc : List (String × ℚ)) (t : ℚ),
      (fields.foldl (scoreStep p1 p2) (acc, t)).2
        = t + (fields.map (fieldScoreOf p1 p2)).sum := by
  intro fields
  induction fields with
  | nil => intro acc t; simp
  | cons fld rest ih =>
    intro acc t
    simp only [List.foldl_cons, scoreStep, List.map_cons, List.sum_cons]
    rw [ih]
    ring_nf
    simp [fieldScoreOf]
    ring

/-- C4: for every rule and candidate pair, `totalScore` is the sum of the
per-field scores and the classification compares it against the two
inclusive thresholds (auto first, then potential, else no-match); on the
spec's boundary scenario (family exact weight 10 / moderate, birthDate
exact weight 10 / conservative, thresholds 15 and 8), candidate A scores 10
and classifies potential-match, candidate B scores 20 and classifies
auto-match, candidate C scores 0, classifies no-match, and is excluded from
the returned result list. -/
theorem match_total_and_classification :
    (∀ (rule : MatchingRule) (p1 p2 : FHIRPatient),
      (calculateMatchScore p1 p2 rule).totalScore
          = ((calculateMatchScore p1 p2 rule).fieldScores.map Prod.snd).sum
      ∧ (calculateMatchScore p1 p2 rule).matchLevel
          = (if rule.autoMatchThreshold ≤ (calculateMatchScore p1 p2 rule).totalScore then
              MatchLevel.autoMatch
            else if rule.potentialMatchThreshold ≤ (calculateMatchScore p1 p2 rule).totalScore
              then MatchLevel.potentialMatch
            else MatchLevel.noMatch))
    ∧ (calculateMatchScore scenarioNewPatient candidateA scenarioRule).totalScore = 10
    ∧ (calculateMatchScore scenarioNewPatient candidateA scenarioRule).matchLevel
        = MatchLevel.potentialMatch
    ∧ (calculateMatchScore scenarioNewPatient candidateB scenarioRule).totalScore = 20
    ∧ (calculateMatchScore scenarioNewPatient candidateB scenarioRule).matchLevel
        = MatchLevel.autoMatch
    ∧ (calculateMatchScore scenarioNewPatient candidateC scenarioRule).totalScore = 0
    ∧ (calculateMatchScore scenarioNewPatient candidateC scenarioRule).matchLevel
        = MatchLevel.noMatch
    ∧ (findPotentialDuplicates scenarioNewPatient (some [candidateA, candidateB, candidateC])
          [scenarioRule]).map Prod.fst
        = [candidateB, candidateA] := by
  refine ⟨fun rule p1 p2 => ⟨?_, rfl⟩, ?_, ?_, ?_, ?_, ?_, ?_, ?_⟩
  · have hT : (calculateMatchScore p1 p2 rule).totalScore
        = (rule.fields.foldl (scoreStep p1 p2) ([], 0)).2 := rfl
    have hF : (calculateMatchScore p1 p2 rule).fieldScores
        = (rule.fields.foldl (scoreStep p1 p2) ([], 0)).1 := rfl
    rw [hT, hF, scoreFold_fst, scoreFold_snd]
    simp [List.map_map, Function.comp_def]
  all_goals
    simp [findPotentialDuplicates, calculateBestMatchScore, noMatchScore, List.insertionSort,
      List.orderedInsert, List.filterMap_cons, List.filterMap_nil, calculateMatchScore,
      scoreStep, compareFields, extractFieldValue, rawFieldValue, falsyNull, scenarioRule,
      scenarioFamilyRule, scenarioBirthDateRule, scenarioNewPatient, candidateA, candidateB,
      candidateC, handleOneNull, handleBothNull, getNullScore]
  all_goals norm_num

/-- C5 counterexample: `'Smith'` and `'SMITH'` are equal after case
normalisation, yet the `exact` comparator scores 0, not the rule's full
weight — the source compares with raw `===`. -/
theorem exact_not_caseNormalized :
    lowerChars "Smith" = lowerChars "SMITH"
    ∧ scenarioFamilyRule.algorithm = MatchAlgorithm.exact
    ∧ compareFields (some "Smith") (some "SMITH") scenarioFamilyRule = 0
    ∧ compareFields (some "Smith") (some "SMITH") scenarioFamilyRule
        ≠ scenarioFamilyRule.weight := by
  refine ⟨by decide, rfl, rfl, by decide⟩

/-- C5 amended: for an `exact` field rule the per-field score on two present
values is the full weight exactly when the raw strings are equal
(case-sensitively), and 0 otherwise. -/
theorem exact_scores_raw_equality (v1 v2 : String) (thr : Option ℚ) (w : ℚ)
    (nh nhb : NullHandling) (es : String) :
    compareFields (some v1) (some v2)
        { algorithm := .exact, threshold := thr, weight := w, null_handling := nh
          null_handling_both := nhb, espath := es }
      = if v1 = v2 then w else 0 := rfl

/-- The capped prefix loop computes the minimum of its cap and the common
prefix length. -/
theorem pfxLen_eq_min : ∀ (l1 l2 : List Char) (n : ℕ),
    pfxLen l1 l2 n = min n (commonLen l1 l2) := by
  intro l1
  induction l1 with
  | nil => intro l2 n; cases l2 <;> cases n <;> simp [pfxLen, commonLen]
  | cons a t ih =>
    intro l2 n
    cases l2 with
    | nil => cases n <;> simp [pfxLen, commonLen]
    | cons b t2 =>
      cases n with
      | zero => simp [pfxLen, commonLen]
      | succ m =>
        by_cases hab : a = b
        · simp [pfxLen, commonLen, hab, ih, Nat.succ_min_succ]
        · simp [pfxLen, commonLen, hab]

/-- The common prefix of two lists is no longer than either list. -/
theorem commonLen_le : ∀ l1 l2 : List Char, commonLen l1 l2 ≤ min l1.length l2.length := by
  intro l1
  induction l1 with
  | nil => intro l2; cases l2 <;> simp [commonLen]
  | cons a t ih =>
    intro l2
    cases l2 with
    | nil => simp [commonLen]
    | cons b t2 =>
      by_cases hab : a = b
      · have := ih t2
        simp only [commonLen, hab, if_true, List.length_cons]
        omega
      · simp [commonLen, hab]

/-- The source's prefix loop, run with its cap `min(4, min(len1, len2))`,
computes the common prefix length capped at 4. -/
theorem pfxCap_eq (l1 l2 : List Char) :
    pfxLen l1 l2 (min 4 (min l1.length l2.length)) = min 4 (commonLen l1 l2) := by
  rw [pfxLen_eq_min]
  have h := commonLen_le l1 l2
  omega

/-- C6 counterexample: on `"ab"` vs `"axyz"` the Jaro similarity is
`7/12 < 0.7`, the capped common prefix has length 1, and the source returns
the Jaro similarity unchanged — not the claimed
`jaro + 0.1 * p * (1 - jaro)` value. -/
theorem jaroWinkler_formula_cex :
    jaroSimilarity "ab" "axyz" = 7 / 12
    ∧ jaroWinklerSimilarity "ab" "axyz" = 7 / 12
    ∧ min 4 (commonLen (lowerChars "ab") (lowerChars "axyz")) = 1
    ∧ jaroWinklerSimilarity "ab" "axyz"
        ≠ jaroSimilarity "ab" "axyz"
          + (1 / 10) * ((min 4 (commonLen (lowerChars "ab") (lowerChars "axyz")) : ℕ) : ℚ)
            * (1 - jaroSimilarity "ab" "axyz") := by
  have key : jaroSimilarity "ab" "axyz"
      = (((1 : ℕ) : ℚ) / ((2 : ℕ) : ℚ) + ((1 : ℕ) : ℚ) / ((4 : ℕ) : ℚ)
          + (((1 : ℕ) : ℚ) - ((0 : ℕ) : ℚ) / 2) / ((1 : ℕ) : ℚ)) / 3 := rfl
  have hj : jaroSimilarity "ab" "axyz" = 7 / 12 := by
    rw [key]; push_cast; norm_num
  have hcap : min 4 (commonLen (lowerChars "ab") (lowerChars "axyz")) = 1 := by decide
  have hjw : jaroWinklerSimilarity "ab" "axyz" = 7 / 12 := by
    simp only [jaroWinklerSimilarity]
    rw [hj]
    norm_num
  refine ⟨hj, hjw, hcap, ?_⟩
  rw [hj, hjw, hcap]
  push_cast
  norm_num

/-- C6 amended: for all non-empty strings the source's Jaro-Winkler equals
the Jaro similarity when that is below 0.7, and otherwise Jaro plus the
bonus `p * 0.1 * (1 - jaro)` with `p` the common case-normalised prefix
length capped at 4; and the reference value
`similarity("MARTHA","MARHTA")` is within 0.01 of 0.961. -/
theorem jaroWinkler_prefix_bonus (s1 s2 : String) (h1 : s1 ≠ "") (h2 : s2 ≠ "") :
    jaroWinklerSimilarity s1 s2 =
      (if jaroSimilarity s1 s2 < 7 / 10 then jaroSimilarity s1 s2
       else jaroSimilarity s1 s2
         + ((min 4 (commonLen (lowerChars s1) (lowerChars s2)) : ℕ) : ℚ) * (1 / 10)
           * (1 - jaroSimilarity s1 s2))
    ∧ |jaroWinklerSimilarity "MARTHA" "MARHTA" - 961 / 1000| ≤ 1 / 100 := by
  constructor
  · simp only [jaroWinklerSimilarity]
    rw [pfxCap_eq]
  · have key : jaroSimilarity "MARTHA" "MARHTA"
        = (((6 : ℕ) : ℚ) / ((6 : ℕ) : ℚ) + ((6 : ℕ) : ℚ) / ((6 : ℕ) : ℚ)
            + (((6 : ℕ) : ℚ) - ((2 : ℕ) : ℚ) / 2) / ((6 : ℕ) : ℚ)) / 3 := rfl
    have hj : jaroSimilarity "MARTHA" "MARHTA" = 17 / 18 := by
      rw [key]; push_cast; norm_num
    have hp : pfxLen (lowerChars "MARTHA") (lowerChars "MARHTA")
        (min 4 (min (lowerChars "MARTHA").length (lowerChars "MARHTA").length)) = 3 := by
      decide
    have hjw : jaroWinklerSimilarity "MARTHA" "MARHTA" = 173 / 180 := by
      simp only [jaroWinklerSimilarity]
      rw [hj, hp]
      norm_num
    rw [hjw, abs_le]
    norm_num

/-- C6 amended, witnessed at the spec's reference pair. -/
theorem jaroWinkler_prefix_bonus_witness :
    ("MARTHA" : String) ≠ "" ∧ ("MARHTA" : String) ≠ ""
    ∧ jaroWinklerSimilarity "MARTHA" "MARHTA" =
        (if jaroSimilarity "MARTHA" "MARHTA" < 7 / 10 then jaroSimilarity "MARTHA" "MARHTA"
         else jaroSimilarity "MARTHA" "MARHTA"
           + ((min 4 (commonLen (lowerChars "MARTHA") (lowerChars "MARHTA")) : ℕ) : ℚ)
             * (1 / 10) * (1 - jaroSimilarity "MARTHA" "MARHTA")) :=
  ⟨by decide, by decide,
    (jaroWinkler_prefix_bonus "MARTHA" "MARHTA" (by decide) (by decide)).1⟩

/-- C10: a field whose underlying JavaScript value is the empty string on
either entity is extracted as `null` (the `|| null` coercion), the
extractor never produces an empty-string value, and the per-field score is
then the null-handling score (both-missing tier when both sides are
missing, one-missing tier otherwise) — no string comparator runs. -/
theorem emptyString_field_missing (p1 p2 : FHIRPatient) (fr : FieldRule)
    (h : rawFieldValue p1 fr = some "" ∨ rawFieldValue p2 fr = some "") :
    (∀ q : FHIRPatient, extractFieldValue q fr ≠ some "")
    ∧ (extractFieldValue p1 fr = none ∨ extractFieldValue p2 fr = none)
    ∧ compareFields (extractFieldValue p1 fr) (extractFieldValue p2 fr) fr =
        (if extractFieldValue p1 fr = none ∧ extractFieldValue p2 fr = none then
          handleBothNull fr
        else handleOneNull fr) := by
  have hne : ∀ o : Option String, falsyNull o ≠ some "" := by
    intro o
    match o with
    | none => simp [falsyNull]
    | some s =>
      simp only [falsyNull]
      split
      · simp
      · simp_all
  have hnone : ∀ o : Option String, o = some "" → falsyNull o = none := by
    intro o ho
    subst ho
    simp [falsyNull]
  have hx : extractFieldValue p1 fr = none ∨ extractFieldValue p2 fr = none := by
    rcases h with h | h
    · exact Or.inl (hnone _ h)
    · exact Or.inr (hnone _ h)
  refine ⟨fun q => hne _, hx, ?_⟩
  cases hy1 : extractFieldValue p1 fr <;> cases hy2 : extractFieldValue p2 fr <;>
    simp_all [compareFields]

/-- C10, witnessed on a patient whose family name is stored as `""`. -/
theorem emptyString_field_missing_witness :
    rawFieldValue emptyFamilyPatient scenarioFamilyRule = some ""
    ∧ compareFields (extractFieldValue emptyFamilyPatient scenarioFamilyRule)
        (extractFieldValue candidateA scenarioFamilyRule) scenarioFamilyRule =
      (if extractFieldValue emptyFamilyPatient scenarioFamilyRule = none
          ∧ extractFieldValue candidateA scenarioFamilyRule = none then
        handleBothNull scenarioFamilyRule
      else handleOneNull scenarioFamilyRule) :=
  ⟨by decide,
    (emptyString_field_missing emptyFamilyPatient candidateA scenarioFamilyRule
      (Or.inl (by decide))).2.2⟩

/-- C9 counterexample: a new patient whose only name entry has a given name
but no family name has its (present, non-empty) `name` replaced wholesale
by the existing patient's name list. -/
theorem merge_overwrites_given_name :
    givenOnlyPatient.name ≠ none
    ∧ givenOnlyPatient.name ≠ some []
    ∧ (mergePatientData givenOnlyPatient existingNamed).name = existingNamed.name
    ∧ (mergePatientData givenOnlyPatient existingNamed).name ≠ givenOnlyPatient.name := by
  decide

/-- C9 amended: the merge fills `identifier` only when the new patient's is
absent or empty, `birthDate`/`gender` only when the new one is falsy and
the existing one truthy, and replaces `name` exactly when the new patient
has no name, an empty name list, or a first name entry without a truthy
family — in that last case existing data replaces the new entry even if it
carried given names; all other fields are the new patient's. -/
theorem mergePatientData_frame (np ep : FHIRPatient) :
    ((mergePatientData np ep).identifier
        = if identMissing np.identifier then ep.identifier else np.identifier)
    ∧ ((mergePatientData np ep).birthDate
        = if strFalsy np.birthDate && !strFalsy ep.birthDate then ep.birthDate else np.birthDate)
    ∧ ((mergePatientData np ep).gender
        = if strFalsy np.gender && !strFalsy ep.gender then ep.gender else np.gender)
    ∧ ((mergePatientData np ep).name
        = if nameFirstNoFamily np.name && nameNonempty ep.name then ep.name else np.name)
    ∧ (mergePatientData np ep).id = np.id
    ∧ (mergePatientData np ep).resourceType = np.resourceType := by
  cases hid : identMissing np.identifier <;>
    cases hbd : strFalsy np.birthDate && !strFalsy ep.birthDate <;>
      cases hg : strFalsy np.gender && !strFalsy ep.gender <;>
        cases hn : nameFirstNoFamily np.name && nameNonempty ep.name <;>
          simp [mergePatientData, hid, hbd, hg, hn]

/-- C7 counterexample: from the started state, a cron tick fires while one
poll cycle is still in flight and a second cycle starts — the `isPolling`
check does not skip it, so two cycles overlap. -/
theorem poll_tick_overlap_cex :
    (schedRun startedState [CDCEvent.tick]).inFlight = 1
    ∧ (schedRun startedState [CDCEvent.tick, CDCEvent.tick]).inFlight = 2
    ∧ ¬(schedRun startedState [CDCEvent.tick, CDCEvent.tick]).inFlight ≤ 1 := by
  decide

/-- C7 amended: the only guard on a poll tick is the service-level
`isPolling` flag — a tick is skipped exactly when the service has been
stopped; while it is running, a tick always starts a new cycle regardless
of how many are in flight, and no tick or cycle completion ever changes the
flag. -/
theorem cdc_tick_guard (s : SchedulerState) (es : List CDCEvent) :
    (s.isPolling = false → schedStep s CDCEvent.tick = s)
    ∧ (s.isPolling = true → (schedStep s CDCEvent.tick).inFlight = s.inFlight + 1)
    ∧ (schedRun s es).isPolling = s.isPolling := by
  refine ⟨fun h => by simp [schedStep, h], fun h => by simp [schedStep, h], ?_⟩
  induction es generalizing s with
  | nil => rfl
  | cons e rest ih =>
    simp only [schedRun, List.foldl_cons]
    have hstep := ih (schedStep s e)
    simp only [schedRun] at hstep
    rw [hstep]
    cases e <;> simp only [schedStep] <;> split <;> rfl

/-- C7 amended, witnessed at the started state. -/
theorem cdc_tick_guard_witness :
    startedState.isPolling = true
    ∧ (schedStep startedState CDCEvent.tick).inFlight = startedState.inFlight + 1 :=
  ⟨rfl, (cdc_tick_guard startedState []).2.1 rfl⟩

/-- C3: `recordFailure` writes `impilo_id` (after the `|| null` coercion)
and `JSON.stringify(record.data)` into the ledger verbatim — no call into
the codec — so for a concrete failing session the stored natural key is the
plaintext `"ID123"`, which is not even shaped like an
`ivBase64:cipherBase64` token (`decryptData` would reject it). -/
theorem recordFailure_stores_plaintext :
    (∀ (r : SessionRow) (err : String) (now : ℕ),
      (recordFailureRow r err now).impiloId = falsyNull r.impiloId
      ∧ (recordFailureRow r err now).data = r.dataJson)
    ∧ (recordFailureRow plaintextSession "processing failed" 7).impiloId = some "ID123"
    ∧ (recordFailureRow plaintextSession "processing failed" 7).data = "raw-session-payload"
    ∧ tokenWellFormed "ID123" = false
    ∧ tokenWellFormed "raw-session-payload" = false := by
  exact ⟨fun r err now => ⟨rfl, rfl⟩, by decide, rfl, by decide, by decide⟩

/-- Reflexivity of the lexicographic position order. -/
theorem posLe_refl (a : ℕ × Option ℕ) : posLe a a := by
  rcases a with ⟨t, _ | i⟩ <;> simp [posLe, idLe]

/-- Reflexivity of the row order. -/
theorem rowLe_refl (r : SessionRow) : rowLe r r := by
  simp [rowLe, posLe, idLe]

/-- In a sorted list, every member is `≼` the last element. -/
theorem sorted_le_getLast :
    ∀ {l : List SessionRow} {lastR : SessionRow}, List.Sorted rowLe l →
      l.getLast? = some lastR → ∀ r ∈ l, rowLe r lastR := by
  intro l
  induction l with
  | nil => intro lastR _ h; cases h
  | cons a t ih =>
    intro lastR hs hl r hr
    cases t with
    | nil =>
      have ha : a = lastR := by simpa using hl
      have hra : r = a := by simpa using hr
      subst ha
      subst hra
      exact rowLe_refl _
    | cons b t2 =>
      rw [List.getLast?_cons_cons] at hl
      rcases List.mem_cons.mp hr with rfl | hrt
      · exact List.rel_of_sorted_cons hs lastR (List.mem_of_mem_getLast? hl)
      · exact ih hs.of_cons hl r hrt

/-- The fetched batch is sorted by `(ingested_at, id)`. -/
theorem getNewSessions_sorted (table : List SessionRow) (wm : WatermarkRow) (n : ℕ) :
    List.Sorted rowLe (getNewSessions table wm n) := by
  unfold getNewSessions
  exact (List.sorted_insertionSort rowLe _).sublist (List.take_sublist _ _)

/-- Every fetched row lies strictly past the watermark timestamp. -/
theorem getNewSessions_past_wm (table : List SessionRow) (wm : WatermarkRow) (n : ℕ) :
    ∀ r ∈ getNewSessions table wm n, wm.lastIngestedAt < r.ingestedAt := by
  intro r hr
  unfold getNewSessions at hr
  have hr' := List.mem_of_mem_take hr
  rw [List.mem_insertionSort] at hr'
  have hmem := List.mem_filter.mp hr'
  simpa using hmem.2

/-- The conflict update rewrites error fields only; the key is untouched. -/
theorem conflictUpdate_sessionId (f : FailureRow) (e : String) (n : ℕ) :
    (conflictUpdate f e n).sessionId = f.sessionId := rfl

/-- After an upsert for a record, the ledger contains the record's key. -/
theorem ledgerUpsert_any_self (led : List FailureRow) (r : SessionRow) (e : String) (n : ℕ) :
    ((ledgerUpsert led r e n).any fun f => f.sessionId == r.id) = true := by
  unfold ledgerUpsert
  split
  · next hany =>
    simp only [List.any_eq_true] at hany ⊢
    obtain ⟨f, hf, hfk⟩ := hany
    refine ⟨_, List.mem_map_of_mem _ hf, ?_⟩
    simp [hfk, conflictUpdate]
  · simp only [List.any_eq_true]
    exact ⟨recordFailureRow r e n, by simp, by simp [recordFailureRow]⟩

/-- An upsert never removes a key already present in the ledger. -/
theorem ledgerUpsert_any_mono (led : List FailureRow) (r : SessionRow) (e : String) (n k : ℕ)
    (h : (led.any fun f => f.sessionId == k) = true) :
    ((ledgerUpsert led r e n).any fun f => f.sessionId == k) = true := by
  unfold ledgerUpsert
  split
  · simp only [List.any_eq_true] at h ⊢
    obtain ⟨f, hf, hfk⟩ := h
    refine ⟨_, List.mem_map_of_mem _ hf, ?_⟩
    by_cases hc : (f.sessionId == r.id) = true <;> simp [hc, conflictUpdate, hfk]
  · simp only [List.any_eq_true] at h ⊢
    obtain ⟨f, hf, hfk⟩ := h
    exact ⟨f, by simp [hf], hfk⟩

/-- The per-record loop of `processBatch` never removes a ledger key. -/
theorem foldl_failStep_any_mono (ok : SessionRow → Bool) (errMsg : SessionRow → String)
    (now : ℕ) (records : List SessionRow) (led : List FailureRow) (k : ℕ)
    (h : (led.any fun f => f.sessionId == k) = true) :
    ((records.foldl (failStep ok errMsg now) led).any fun f => f.sessionId == k) = true := by
  induction records generalizing led with
  | nil => exact h
  | cons a t ih =>
    simp only [List.foldl_cons]
    apply ih
    unfold failStep
    split
    · exact h
    · exact ledgerUpsert_any_mono _ _ _ _ _ h

/-- After the per-record loop, every failing record's key is in the
ledger. -/
theorem foldl_failStep_covers (ok : SessionRow → Bool) (errMsg : SessionRow → String)
    (now : ℕ) (records : List SessionRow) (led : List FailureRow) (r : SessionRow)
    (hr : r ∈ records) (hfail : ok r = false) :
    ((records.foldl (failStep ok errMsg now) led).any fun f => f.sessionId == r.id) = true := by
  induction records generalizing led with
  | nil => cases hr
  | cons a t ih =>
    simp only [List.foldl_cons]
    rcases List.mem_cons.mp hr with rfl | hrt
    · exact foldl_failStep_any_mono ok errMsg now t _ _
        (by simp [failStep, hfail, ledgerUpsert_any_self])
    · exact ih _ hrt

/-- C2: the watermark position never decreases under a poll cycle — an
empty fetch leaves the watermark row untouched, and a non-empty fetch
advances it to the batch's last row, which is the maximum `(timestamp, id)`
of the batch. -/
theorem watermark_monotone (table : List SessionRow) (ok : SessionRow → Bool)
    (errMsg : SessionRow → String) (now : ℕ) (s : CDCState) :
    posLe (wmPos s.wm) (wmPos (pollForNewSessions table ok errMsg now s).wm)
    ∧ (getNewSessions table s.wm cdcBatchSize = [] →
        (pollForNewSessions table ok errMsg now s).wm = s.wm)
    ∧ ∀ lastR, (getNewSessions table s.wm cdcBatchSize).getLast? = some lastR →
        wmPos (pollForNewSessions table ok errMsg now s).wm = (lastR.ingestedAt, some lastR.id)
        ∧ ∀ r ∈ getNewSessions table s.wm cdcBatchSize,
            posLe (r.ingestedAt, some r.id) (lastR.ingestedAt, some lastR.id) := by
  have hpoll : pollForNewSessions table ok errMsg now s
      = if (getNewSessions table s.wm cdcBatchSize).isEmpty then s
        else processBatch ok errMsg now (getNewSessions table s.wm cdcBatchSize) s := rfl
  by_cases hempty : getNewSessions table s.wm cdcBatchSize = []
  · have hpoll' : pollForNewSessions table ok errMsg now s = s := by
      rw [hpoll, hempty]
      simp
    refine ⟨?_, fun _ => ?_, fun lastR hl => ?_⟩
    · rw [hpoll']
      exact posLe_refl _
    · rw [hpoll']
    · rw [hempty] at hl
      cases hl
  · have hne : (getNewSessions table s.wm cdcBatchSize).isEmpty = false := by
      simpa [List.isEmpty_iff] using hempty
    have hglast := List.getLast?_eq_getLast_of_ne_nil hempty
    have hpb : pollForNewSessions table ok errMsg now s
        = { wm := updateWatermark s.wm
              ((getNewSessions table s.wm cdcBatchSize).getLast hempty).ingestedAt
              ((getNewSessions table s.wm cdcBatchSize).getLast hempty).id
              (getNewSessions table s.wm cdcBatchSize).length
            ledger := (getNewSessions table s.wm cdcBatchSize).foldl
              (failStep ok errMsg now) s.ledger } := by
      rw [hpoll, hne]
      simp only [Bool.false_eq_true, if_false, processBatch, hglast]
    have hlastmem : (getNewSessions table s.wm cdcBatchSize).getLast hempty
        ∈ getNewSessions table s.wm cdcBatchSize := List.getLast_mem hempty
    refine ⟨?_, fun h => absurd h hempty, fun lastR hl => ?_⟩
    · rw [hpb]
      exact Or.inl (getNewSessions_past_wm table s.wm cdcBatchSize _ hlastmem)
    · rw [hglast] at hl
      injection hl with hl'
      subst hl'
      refine ⟨by rw [hpb]; rfl, fun r hr => ?_⟩
      exact sorted_le_getLast (getNewSessions_sorted table s.wm cdcBatchSize) hglast r hr

/-- C2, witnessed on the demo table: the non-empty fetch advances the
watermark to the position of the later demo row. -/
theorem watermark_monotone_witness :
    (getNewSessions demoTable demoState.wm cdcBatchSize).getLast? = some demoRow2
    ∧ wmPos (pollForNewSessions demoTable demoOk demoErr 9 demoState).wm
        = (demoRow2.ingestedAt, some demoRow2.id) :=
  ⟨by decide,
    ((watermark_monotone demoTable demoOk demoErr 9 demoState).2.2 demoRow2 (by decide)).1⟩

/-- C1: after a poll cycle, every fetched row whose processing succeeded
sits at or below the advanced watermark, every fetched row whose processing
failed has an entry in the failure ledger, and no fetched row is both past
the watermark and absent from the ledger. -/
theorem batch_never_lost (table : List SessionRow) (ok : SessionRow → Bool)
    (errMsg : SessionRow → String) (now : ℕ) (s : CDCState) :
    ∀ r ∈ getNewSessions table s.wm cdcBatchSize,
      (ok r = true → posLe (r.ingestedAt, some r.id)
          (wmPos (pollForNewSessions table ok errMsg now s).wm))
      ∧ (ok r = false →
          ((pollForNewSessions table ok errMsg now s).ledger.any
              fun f => f.sessionId == r.id) = true)
      ∧ ¬(¬ posLe (r.ingestedAt, some r.id)
              (wmPos (pollForNewSessions table ok errMsg now s).wm)
          ∧ ((pollForNewSessions table ok errMsg now s).ledger.any
              fun f => f.sessionId == r.id) = false) := by
  intro r hr
  have hempty : getNewSessions table s.wm cdcBatchSize ≠ [] := List.ne_nil_of_mem hr
  have hne : (getNewSessions table s.wm cdcBatchSize).isEmpty = false := by
    simpa [List.isEmpty_iff] using hempty
  have hglast := List.getLast?_eq_getLast_of_ne_nil hempty
  have hpb : pollForNewSessions table ok errMsg now s
      = { wm := updateWatermark s.wm
            ((getNewSessions table s.wm cdcBatchSize).getLast hempty).ingestedAt
            ((getNewSessions table s.wm cdcBatchSize).getLast hempty).id
            (getNewSessions table s.wm cdcBatchSize).length
          ledger := (getNewSessions table s.wm cdcBatchSize).foldl
            (failStep ok errMsg now) s.ledger } := by
    have hpoll : pollForNewSessions table ok errMsg now s
        = if (getNewSessions table s.wm cdcBatchSize).isEmpty then s
          else processBatch ok errMsg now (getNewSessions table s.wm cdcBatchSize) s := rfl
    rw [hpoll, hne]
    simp only [Bool.false_eq_true, if_false, processBatch, hglast]
  have hcov : posLe (r.ingestedAt, some r.id)
      (wmPos (pollForNewSessions table ok errMsg now s).wm) := by
    rw [hpb]
    exact sorted_le_getLast (getNewSessions_sorted table s.wm cdcBatchSize) hglast r hr
  refine ⟨fun _ => hcov, fun hfail => ?_, fun hc => hc.1 hcov⟩
  rw [hpb]
  exact foldl_failStep_covers ok errMsg now _ _ r hr hfail

/-- C1, witnessed on the demo table: the failing demo row ends up in the
ledger after the poll cycle. -/
theorem batch_never_lost_witness :
    demoRow2 ∈ getNewSessions demoTable demoState.wm cdcBatchSize
    ∧ ((pollForNewSessions demoTable demoOk demoErr 9 demoState).ledger.any
        fun f => f.sessionId == demoRow2.id) = true :=
  ⟨by decide,
    ((batch_never_lost demoTable demoOk demoErr 9 demoState demoRow2 (by decide)).2.1
      (by decide))⟩

/-- With distinct ledger keys, the rows keyed `k` form exactly the
singleton holding the matching entry. -/
theorem nodupKeys_filter_eq (led : List FailureRow) (k : ℕ) (f : FailureRow)
    (hn : (led.map (·.sessionId)).Nodup) (hf : f ∈ led) (hk : f.sessionId = k) :
    led.filter (fun g => g.sessionId == k) = [f] := by
  induction led with
  | nil => cases hf
  | cons g t ih =>
    simp only [List.map_cons, List.nodup_cons] at hn
    obtain ⟨hgnot, hnt⟩ := hn
    rcases List.mem_cons.mp hf with rfl | hft
    · have hgk : (f.sessionId == k) = true := by simp [hk]
      have ht : t.filter (fun g2 => g2.sessionId == k) = [] := by
        rw [List.filter_eq_nil_iff]
        intro a ha hak
        apply hgnot
        have ha' : a.sessionId = k := by simpa using hak
        rw [hk, ← ha']
        exact List.mem_map_of_mem _ ha
      simp [List.filter_cons, hgk, ht]
    · have hgk : (g.sessionId == k) = false := by
        rw [beq_eq_false_iff_ne]
        intro hgkeq
        apply hgnot
        rw [hgkeq, ← hk]
        exact List.mem_map_of_mem _ hft
      simp only [List.filter_cons, hgk, Bool.false_eq_true, if_false]
      exact ih hnt hft

/-- C8: the upsert keeps ledger keys distinct (so each `sourceId` has at
most one entry); a second failure for a key already present keeps the
ledger the same length and turns the keyed entry into the conflict update
(`lastError` refreshed, `lastAttemptAt := now`, `attemptCount + 1`); a
failure for a fresh key appends exactly one new entry. -/
theorem ledger_unique (led : List FailureRow) (record : SessionRow) (err : String) (now : ℕ) :
    ((led.map (·.sessionId)).Nodup →
      ((ledgerUpsert led record err now).map (·.sessionId)).Nodup)
    ∧ (∀ f ∈ led, f.sessionId = record.id → (led.map (·.sessionId)).Nodup →
        (ledgerUpsert led record err now).length = led.length
        ∧ (ledgerUpsert led record err now).filter (fun g => g.sessionId == record.id)
            = [conflictUpdate f err now])
    ∧ ((led.any fun f => f.sessionId == record.id) = false →
        ledgerUpsert led record err now = led ++ [recordFailureRow record err now]) := by
  have hu : ∀ g : FailureRow,
      ((if g.sessionId == record.id then conflictUpdate g err now else g).sessionId)
        = g.sessionId := by
    intro g
    by_cases hc : (g.sessionId == record.id) = true <;> simp [hc, conflictUpdate]
  refine ⟨?_, ?_, ?_⟩
  · intro hn
    unfold ledgerUpsert
    split
    · rw [List.map_map]
      have : ((fun f : FailureRow => f.sessionId) ∘ fun f =>
          if f.sessionId == record.id then conflictUpdate f err now else f)
          = fun f : FailureRow => f.sessionId := by
        funext g
        exact hu g
      rw [this]
      exact hn
    · next hany =>
      simp only [List.any_eq_true] at hany
      push_neg at hany
      rw [List.map_append]
      simp only [List.map_cons, List.map_nil]
      rw [List.nodup_append]
      refine ⟨hn, List.nodup_singleton _, ?_⟩
      intro x hx
      simp only [List.mem_singleton]
      obtain ⟨f, hf, hfk⟩ := List.mem_map.mp hx
      intro hxeq
      exact hany f hf (by simp [hfk, hxeq, recordFailureRow])
  · intro f hf hk hn
    have hanytrue : (led.any fun g => g.sessionId == record.id) = true := by
      simp only [List.any_eq_true]
      exact ⟨f, hf, by simp [hk]⟩
    unfold ledgerUpsert
    rw [if_pos hanytrue]
    constructor
    · exact List.length_map _ _
    · rw [List.filter_map]
      have hcong : led.filter ((fun g : FailureRow => g.sessionId == record.id) ∘ fun f =>
          if f.sessionId == record.id then conflictUpdate f err now else f)
          = led.filter (fun g => g.sessionId == record.id) := by
        apply List.filter_congr
        intro g _
        simp only [Function.comp_apply, hu g]
      rw [hcong, nodupKeys_filter_eq led record.id f hn hf hk]
      simp [hk, conflictUpdate]
  · intro hany
    unfold ledgerUpsert
    rw [hany]
    simp

/-- C8, witnessed on a demo ledger already holding an entry for session 2:
re-recording a failure for session 2 keeps one entry and increments its
attempt count. -/
theorem ledger_unique_witness :
    (demoLedger.map (·.sessionId)).Nodup
    ∧ (ledgerUpsert demoLedger demoRow2 "second error" 20).length = demoLedger.length
    ∧ (ledgerUpsert demoLedger demoRow2 "second error" 20).filter
        (fun g => g.sessionId == demoRow2.id) = [conflictUpdate demoFailure "second error" 20] := by
  refine ⟨by decide, ?_, ?_⟩
  · exact ((ledger_unique demoLedger demoRow2 "second error" 20).2.1 demoFailure (by decide)
      (by decide) (by decide)).1
  · exact ((ledger_unique demoLedger demoRow2 "second error" 20).2.1 demoFailure (by decide)
      (by decide) (by decide)).2

end Impilo
